import Mathlib

/-!
Verification of the tmux shell controller of hackingBuddyGPT
(`src/base.py`, class `TmuxShellController`, and
`src/src/hackingBuddyGPT/utils/local_shell/local_shell.py`, class
`LocalShellConnection`).

The two Python files contain two near-identical variants of the same
controller.  The pure text-processing parts (`_is_command_echo`,
`_has_prompt_at_end`, the marker-search loop of `_extract_between_markers`)
are byte-for-byte the same logic in both files and are embedded once.
Where the variants genuinely differ (timeout handling inside
`run_with_unique_markers`, the error path of `run_simple_fallback`, the
slicing inside the fallback, `run`'s interface) both are embedded, with a
`_base` / `_local` suffix.

Python strings are modelled as Lean `String` and, for the character level,
`List Char`; every Python string primitive that the source uses
(`str.strip`, `str.split('\n')`, `str.splitlines`, `'\n'.join`, the
substring test `in`, `str.split(c, 1)[-1]`, `str.lower`, slicing) is
re-implemented below by structural recursion so that all definitions
evaluate by kernel reduction.
-/

/-- The Python whitespace set used by `str.strip()`:
space, tab, newline, carriage return, vertical tab, form feed. -/
def pyWsChar (c : Char) : Bool :=
  c == ' ' || c == '\t' || c == '\n' || c == '\r' || c == '\x0b' || c == '\x0c'

/-- Python `str.strip()` on a character list: drop Python whitespace from
both ends. -/
def pyStripL (l : List Char) : List Char :=
  ((l.dropWhile pyWsChar).reverse.dropWhile pyWsChar).reverse

/-- Python `str.strip()`. -/
def pyStrip (s : String) : String :=
  String.mk (pyStripL s.data)

/-- `startsWithL needle hay`: `needle` is a prefix of `hay`. -/
def startsWithL : List Char → List Char → Bool
  | [], _ => true
  | _ :: _, [] => false
  | a :: as, b :: bs => a == b && startsWithL as bs

/-- `containsL needle hay`: `needle` occurs as a contiguous substring of
`hay` (Python `needle in hay`; the empty needle is contained in
everything, as in Python). -/
def containsL (needle : List Char) : List Char → Bool
  | [] => needle.isEmpty
  | b :: bs => startsWithL needle (b :: bs) || containsL needle bs

/-- Python substring test `needle in hay` on `String`. -/
def strContains (hay needle : String) : Bool :=
  containsL needle.data hay.data

/-- Python `c in s` for a single character. -/
def containsCharL (l : List Char) (c : Char) : Bool :=
  l.any (fun a => a == c)

/-- The suffix of `l` strictly after the first occurrence of `c`
(Python `s.split(c, 1)[-1]` when `c in s`); `none` when `c` does not
occur. -/
def afterFirstL (c : Char) : List Char → Option (List Char)
  | [] => none
  | a :: as => if a == c then some as else afterFirstL c as

/-- Python `str.split('\n')`: always returns at least one piece; a
trailing newline yields a trailing empty piece. -/
def splitOnNlL : List Char → List (List Char)
  | [] => [[]]
  | c :: cs =>
    if c == '\n' then [] :: splitOnNlL cs
    else
      match splitOnNlL cs with
      | h :: t => (c :: h) :: t
      | [] => [[c]]

/-- Python `str.splitlines()` restricted to `'\n'` separators (the panes
captured from tmux are `'\n'`-separated): like `split('\n')` but a final
newline does not produce a trailing empty line, and `''` gives `[]`. -/
def pySplitLinesL (l : List Char) : List (List Char) :=
  let parts := splitOnNlL l
  if parts.getLastD [] == [] then parts.dropLast else parts

/-- Python `str.splitlines()` on `String`. -/
def pySplitLines (s : String) : List String :=
  (pySplitLinesL s.data).map String.mk

/-- `'\n'.join` on character lists. -/
def joinNlL : List (List Char) → List Char
  | [] => []
  | [l] => l
  | l :: ls => l ++ '\n' :: joinNlL ls

/-- Python `'\n'.join(lines)`. -/
def joinNl (ls : List String) : String :=
  String.mk (joinNlL (ls.map String.data))

/-- ASCII lower-casing of one character (Python `str.lower` on the ASCII
texts the controller compares). -/
def lowerChar (c : Char) : Char :=
  if 'A' ≤ c && c ≤ 'Z' then Char.ofNat (c.toNat + 32) else c

/-- Python `str.lower()` (ASCII). -/
def lowerL (l : List Char) : List Char :=
  l.map lowerChar

/-! ## Pure text analysis (identical in `base.py` and `local_shell.py`) -/

/-- One iteration of the `for prompt_char in ['$', '#', '>']` loop of
`_is_command_echo`: `prompt_char in stripped` and
`stripped.split(prompt_char, 1)[-1].strip() == command`. -/
def echoCheckChar (stripped : List Char) (c : Char) (command : String) : Bool :=
  match afterFirstL c stripped with
  | none => false
  | some suffixChars => pyStrip (String.mk suffixChars) == command

/-- `_is_command_echo(line, command)` (`base.py` 200–214,
`local_shell.py` 218–229): the line is stripped; an empty line is not an
echo; for each of `'$'`, `'#'`, `'>'` occurring anywhere in the stripped
line, if the stripped text after its first occurrence equals the command
the line is an echo; otherwise the line is an echo iff the stripped line
equals the command verbatim. -/
def is_command_echo (line command : String) : Bool :=
  let stripped := pyStripL line.data
  if stripped.isEmpty then false
  else if echoCheckChar stripped '$' command then true
  else if echoCheckChar stripped '#' command then true
  else if echoCheckChar stripped '>' command then true
  else String.mk stripped == command

/-- The keyword list of `_has_prompt_at_end`'s secondary heuristic. -/
def outputKeywords : List String :=
  ["error", "warning", "failed", "success", "completed", "finished"]

/-- `_has_prompt_at_end(output)` (`base.py` 102–135, `local_shell.py`
138–167).  The seven regexes of `prompt_patterns` are all of the shape
`.*X\s*$` (or are subsumed by one of that shape); applied with `re.match`
to `last_line`, which has already been stripped of surrounding
whitespace, each is equivalent to "the line is non-empty and its last
character is `X`", so the whole list reduces to: the last character of
the stripped last line is `'$'`, `'#'` or `'>'`.  The secondary
heuristic (line shorter than 100 characters, containing one of
`$ # > :`, containing none of the output keywords in lower case) is kept
verbatim. -/
def has_prompt_at_end (output : String) : Bool :=
  let whole := pyStripL output.data
  if whole.isEmpty then false
  else
    let lines := splitOnNlL whole
    let lastLine := pyStripL (lines.getLastD [])
    (match lastLine.reverse with
     | c :: _ => c == '$' || c == '#' || c == '>'
     | [] => false)
    ||
    (decide (lastLine.length < 100)
      && (containsCharL lastLine '$' || containsCharL lastLine '#'
          || containsCharL lastLine '>' || containsCharL lastLine ':')
      && !(outputKeywords.any (fun kw => containsL kw.data (lowerL lastLine))))

/-- The marker-scanning loop shared by `_extract_between_markers` and the
fallback's marker search (`base.py` 178–184 and 252–258, `local_shell.py`
200–205 and 256–261): walk the lines with the running index `i`;
`if start_marker in line: start_idx = i` (so `start_idx` is overwritten
by every later start-marker line); `elif end_marker in line and start_idx
!= -1: end_idx = i; break`. -/
def find_marker_loop (sm em : String) : List String → Nat → Option Nat → Option (Nat × Nat)
  | [], _, _ => none
  | l :: ls, i, si =>
    if strContains l sm then find_marker_loop sm em ls (i + 1) (some i)
    else
      match si with
      | some s0 =>
        if strContains l em then some (s0, i)
        else find_marker_loop sm em ls (i + 1) (some s0)
      | none => find_marker_loop sm em ls (i + 1) none

/-- The `start_idx`/`end_idx` pair computed by the marker-scanning loop,
or `none` when `start_idx == -1 or end_idx == -1`. -/
def find_marker_positions (lines : List String) (sm em : String) : Option (Nat × Nat) :=
  find_marker_loop sm em lines 0 none

/-- The slice-and-filter of `_extract_between_markers` (`base.py`
190–198, `local_shell.py` 210–216): the lines at indices
`start_idx + 1 .. end_idx - 1`, without the lines for which
`_is_command_echo` holds, joined with `'\n'` and stripped. -/
def marker_slice (lines : List String) (i j : Nat) (cmd : String) : String :=
  pyStrip (joinNl (((lines.drop (i + 1)).take (j - (i + 1))).filter
    (fun l => !is_command_echo l cmd)))

/-- The collection loop of the base fallback's between-marker extraction
(`base.py` 262–281): skip the first line that contains the command next
to a prompt-looking substring (`'$'`, `'#'`, `'>'`, `'└─'`), skip empty
lines while nothing has been collected yet, keep everything else. -/
def fb_collect_base (cmd : String) : List String → Bool → List String → List String
  | [], _, acc => acc.reverse
  | l :: ls, found, acc =>
    if !found && strContains l cmd
        && (strContains l "$" || strContains l "#" || strContains l ">"
            || strContains l "└─") then
      fb_collect_base cmd ls true acc
    else if acc.isEmpty && pyStrip l == "" then
      fb_collect_base cmd ls found acc
    else
      fb_collect_base cmd ls found (l :: acc)

/-- Index of the last element satisfying `p` (Python's
`for i in range(len(lines) - 1, -1, -1)` search). -/
def rfindIdx (p : α → Bool) : List α → Option Nat
  | [] => none
  | a :: as =>
    match rfindIdx p as with
    | some k => some (k + 1)
    | none => if p a then some 0 else none

/-- A line that contains one of the prompt-looking substrings
`'└─'`, `'$'`, `'#'`, `'>'` (used by `_extract_recent_output`). -/
def promptish (l : String) : Bool :=
  strContains l "└─" || strContains l "$" || strContains l "#" || strContains l ">"

/-- The forward collection of `base.py`'s `_extract_recent_output`
(lines 309–316): gather lines after the command line, stopping at the
next prompt-like line that also contains `'@'`, `':'`, `'~'` or the
substring `"kali"`. -/
def collect_until_prompt_base : List String → List String
  | [] => []
  | l :: ls =>
    if promptish l
        && (strContains l "@" || strContains l ":" || strContains l "~"
            || strContains l "kali") then []
    else l :: collect_until_prompt_base ls

/-- `_extract_recent_output(output, command)` of `base.py` (300–321):
scan backwards for a line containing the command adjacent to a
prompt-like substring; return everything after it up to the next
prompt-like line; otherwise return the last 50 lines. -/
def extract_recent_output_base (output cmd : String) : String :=
  let lines := pySplitLines output
  match rfindIdx (fun l => strContains l cmd && promptish l) lines with
  | some i => pyStrip (joinNl (collect_until_prompt_base (lines.drop (i + 1))))
  | none =>
    if lines.isEmpty then "" else pyStrip (joinNl (lines.drop (lines.length - 50)))

/-- `_extract_recent_output(output, command)` of `local_shell.py`
(281–289): same backward scan, but everything after the command line is
returned without looking for a closing prompt. -/
def extract_recent_output_local (output cmd : String) : String :=
  let lines := pySplitLines output
  match rfindIdx (fun l => strContains l cmd && promptish l) lines with
  | some i => pyStrip (joinNl (lines.drop (i + 1)))
  | none =>
    if lines.isEmpty then "" else pyStrip (joinNl (lines.drop (lines.length - 50)))

/-! ## The transport model

The controller's effects are calls to tmux through `subprocess.run`.  They
are modelled by a deterministic `World` oracle (one outcome stream per
operation, indexed by how many calls of that kind have been made) plus an
explicit state `St` threaded through every function.  Exceptions are
modelled by `Except String`; a raising Python function becomes a Lean
function `World → St → ... → St × Except String α` so that the state (and
in particular the tmux `history-limit` setting and the list of sent
keystrokes) is observable on error paths too.  `time.sleep` and `print`
calls are no-ops and are dropped.  The fresh `uuid` marker suffixes are
modelled by universally quantified marker-string parameters. -/

/-- The deterministic environment: whether the tmux session exists,
whether the `n`-th `send-keys` succeeds, whether the `n`-th
`capture-pane` succeeds and what it returns, what the `n`-th cursor query
returns (`none` models a failed query, which `get_cursor_position` turns
into `None`), and the Python `hash` function used on captured panes. -/
structure World where
  sessionExists : Bool
  sendOk : Nat → Bool
  capOk : Nat → Bool
  panes : Nat → String
  cursors : Nat → Option String
  hashF : String → Int

/-- The observable state: the keystroke lines successfully sent so far,
counters of capture and cursor queries made, the session's current
`history-limit`, and the controller fields `max_wait` and
`_initialized`. -/
structure St where
  sends : List String
  caps : Nat
  curs : Nat
  hist : Nat
  maxWait : Nat
  inited : Bool

/-- Sequencing with exception propagation (a Python statement sequence
inside a `try`). -/
def bindE (x : St × Except String α) (f : α → St → St × Except String β) :
    St × Except String β :=
  match x with
  | (st, .ok a) => f a st
  | (st, .error e) => (st, .error e)

/-- `send_command(command)` (`base.py` 18–23, `local_shell.py` 63–68):
`tmux send-keys`; raises `RuntimeError` on failure (the
`CalledProcessError` detail inside the Python message is elided). -/
def send_command (w : World) (st : St) (text : String) : St × Except String Unit :=
  if w.sendOk st.sends.length then
    ({st with sends := st.sends ++ [text]}, .ok ())
  else (st, .error "Failed to send command to tmux")

/-- `capture_output(history_lines)` (`base.py` 25–38, `local_shell.py`
70–83): `tmux capture-pane`; the returned text is the world's pane stream
at the current capture index (the model keeps the `history_lines`
argument but the truncation it selects is folded into the stream). -/
def capture_output (w : World) (st : St) (_historyLines : Nat) :
    St × Except String String :=
  if w.capOk st.caps then
    ({st with caps := st.caps + 1}, .ok (w.panes st.caps))
  else ({st with caps := st.caps + 1}, .error "Failed to capture tmux output")

/-- `get_cursor_position()` (`base.py` 40–52, `local_shell.py` 85–97):
never raises; a failed query yields `none`. -/
def get_cursor_position (w : World) (st : St) : St × Option String :=
  ({st with curs := st.curs + 1}, w.cursors st.curs)

/-- `tmux set-option history-limit n` (run with `capture_output=True` and
no `check=True`, so it never raises). -/
def setHistLimit (st : St) (n : Nat) : St :=
  {st with hist := n}

/-! ## The completion detector -/

/-- The loop-local variables of `wait_for_command_completion`:
`last_output_hash` (`None` initially), `last_cursor_pos` (`None`
initially, which Python cannot distinguish from an absent cursor), and
`stable_count`. -/
structure DetSt where
  lastHash : Option Int
  lastCursor : Option String
  stable : Nat

/-- Result of one poll iteration. -/
inductive DetOut where
  | done
  | cont (d : DetSt)

/-- One iteration of the wait loop (`base.py` 69–97, `local_shell.py`
112–134), given the captured text and the cursor answer: if the hash and
cursor equal the previous tick's values and the cursor is present,
increment `stable_count` and report completion when `stable_count ≥
min_stable_time / check_interval = 1.5 / 0.5 = 3` and the prompt check
passes; otherwise reset `stable_count` to 0.  In either case the stored
hash/cursor become the current ones. -/
def det_tick (hashF : String → Int) (out : String) (cur : Option String)
    (d : DetSt) : DetOut :=
  if some (hashF out) = d.lastHash ∧ cur = d.lastCursor ∧ cur.isSome then
    let sc := d.stable + 1
    if 3 ≤ sc ∧ has_prompt_at_end out then .done
    else .cont ⟨some (hashF out), cur, sc⟩
  else .cont ⟨some (hashF out), cur, 0⟩

/-- The polling loop of `wait_for_command_completion`, with the remaining
wall-clock budget discretised into ticks of `check_interval = 0.5`
seconds (`fuel` ticks in total): each tick captures a fast snapshot
(`capture_output(1000)`, whose failure propagates as an exception out of
the wait), reads the cursor, and runs `det_tick`.  Exhausted fuel is the
`TIMEOUT` outcome, returned as `false`. -/
def wait_loop (w : World) : Nat → St → DetSt → St × Except String Bool
  | 0, st, _ => (st, .ok false)
  | fuel + 1, st, d =>
    bindE (capture_output w st 1000) fun out st =>
      match get_cursor_position w st with
      | (st, cur) =>
        match det_tick w.hashF out cur d with
        | .done => (st, .ok true)
        | .cont d' => wait_loop w fuel st d'

/-- `wait_for_command_completion()` with the default arguments used at
every call site: timeout `self.max_wait` seconds, `check_interval` 0.5
seconds, hence `2 * max_wait` ticks; detector variables start as
`None`/`None`/`0`. -/
def wait_for_command_completion (w : World) (st : St) : St × Except String Bool :=
  wait_loop w (2 * st.maxWait) st ⟨none, none, 0⟩

/-! ## Fallback extractor -/

/-- The `try:` body of `run_simple_fallback` in `base.py` (216–291):
raise the history limit to 50000, clear the screen, echo a fresh clear
marker `cm`, send the command, wait (the boolean result is ignored, but a
capture failure inside the wait propagates), echo a fresh end marker
`fm`, capture 50000 lines, slice between the markers with the
`command_found` collection loop (falling back to
`_extract_recent_output` when the markers are not found), reset the
history limit to 10000 and return. -/
def fb_try_base (w : World) (st : St) (cmd cm fm : String) :
    St × Except String String :=
  let st := setHistLimit st 50000
  bindE (send_command w st "clear") fun _ st =>
  bindE (send_command w st (s!"echo \"{cm}\"")) fun _ st =>
  bindE (send_command w st cmd) fun _ st =>
  bindE (wait_for_command_completion w st) fun _ st =>
  bindE (send_command w st (s!"echo \"{fm}\"")) fun _ st =>
  bindE (capture_output w st 50000) fun pane st =>
  let lines := pySplitLines pane
  let res :=
    match find_marker_positions lines cm fm with
    | some (i, j) =>
      pyStrip (joinNl (fb_collect_base cmd ((lines.drop (i + 1)).take (j - (i + 1)))
        false []))
    | none => extract_recent_output_base pane cmd
  (setHistLimit st 10000, .ok res)

/-- The `try:` body of `run_simple_fallback` in `local_shell.py`
(232–274); the slicing differs from the base variant: take the lines
strictly between the markers, drop the first of them when it contains
the raw command text, join and strip. -/
def fb_try_local (w : World) (st : St) (cmd cm fm : String) :
    St × Except String String :=
  let st := setHistLimit st 50000
  bindE (send_command w st "clear") fun _ st =>
  bindE (send_command w st (s!"echo \"{cm}\"")) fun _ st =>
  bindE (send_command w st cmd) fun _ st =>
  bindE (wait_for_command_completion w st) fun _ st =>
  bindE (send_command w st (s!"echo \"{fm}\"")) fun _ st =>
  bindE (capture_output w st 50000) fun pane st =>
  let lines := pySplitLines pane
  let res :=
    match find_marker_positions lines cm fm with
    | some (i, j) =>
      let resultLines := (lines.drop (i + 1)).take (j - (i + 1))
      let resultLines :=
        match resultLines with
        | [] => []
        | h :: t => if strContains h cmd then t else h :: t
      pyStrip (joinNl resultLines)
    | none => extract_recent_output_local pane cmd
  (setHistLimit st 10000, .ok res)

/-- `run_simple_fallback(command)` of `base.py` (216–298): on any
exception inside the body, reset the history limit to 10000 and return
the error embedded as the string `"Error executing command: {e}"` — the
base fallback never raises. -/
def run_simple_fallback_base (w : World) (st : St) (cmd cm fm : String) :
    St × Except String String :=
  match fb_try_base w st cmd cm fm with
  | (st', .ok r) => (st', .ok r)
  | (st', .error e) =>
    (setHistLimit st' 10000, .ok ("Error executing command: " ++ e))

/-- `run_simple_fallback(command)` of `local_shell.py` (231–279): on any
exception inside the body, reset the history limit to 10000 and
**re-raise** `RuntimeError(f"Error executing command: {e}")`. -/
def run_simple_fallback_local (w : World) (st : St) (cmd cm fm : String) :
    St × Except String String :=
  match fb_try_local w st cmd cm fm with
  | (st', .ok r) => (st', .ok r)
  | (st', .error e) =>
    (setHistLimit st' 10000, .error ("Error executing command: " ++ e))

/-! ## Marker-delimited executor -/

/-- `_extract_between_markers(output, start_marker, end_marker,
original_command)` of `base.py` (172–198): when both markers are found
the slice-and-filter result is returned; otherwise the fallback is
invoked (its fresh uuid markers are the parameters `cm`, `fm`). -/
def extract_between_markers_base (w : World) (st : St)
    (pane sm em cmd cm fm : String) : St × Except String String :=
  let lines := pySplitLines pane
  match find_marker_positions lines sm em with
  | some (i, j) => (st, .ok (marker_slice lines i j cmd))
  | none => run_simple_fallback_base w st cmd cm fm

/-- `_extract_between_markers` of `local_shell.py` (195–216): identical
except that the fallback it delegates to is the local (raising) one. -/
def extract_between_markers_local (w : World) (st : St)
    (pane sm em cmd cm fm : String) : St × Except String String :=
  let lines := pySplitLines pane
  match find_marker_positions lines sm em with
  | some (i, j) => (st, .ok (marker_slice lines i j cmd))
  | none => run_simple_fallback_local w st cmd cm fm

/-- `run_with_unique_markers(command)` of `base.py` (137–170): echo the
start marker, send the command, wait for completion **ignoring the
boolean result** (a timeout only prints a warning and the executor
proceeds), echo the end marker, capture 50000 lines and extract; any
exception in the body falls through to `run_simple_fallback`. -/
def run_with_unique_markers_base (w : World) (st : St)
    (cmd sm em cm fm : String) : St × Except String String :=
  let body :=
    bindE (send_command w st (s!"echo '{sm}'")) fun _ st =>
    bindE (send_command w st cmd) fun _ st =>
    bindE (wait_for_command_completion w st) fun _ st =>
    bindE (send_command w st (s!"echo '{em}'")) fun _ st =>
    bindE (capture_output w st 50000) fun pane st =>
    extract_between_markers_base w st pane sm em cmd cm fm
  match body with
  | (st', .ok r) => (st', .ok r)
  | (st', .error _) => run_simple_fallback_base w st' cmd cm fm

/-- `run_with_unique_markers(command)` of `local_shell.py` (169–193):
unlike the base variant, a detector timeout **raises**
`RuntimeError(f"Command timed out after {self.max_wait}s")` inside the
`try`, so the end marker is never sent on that path and the `except`
branch delegates to the (raising) local fallback. -/
def run_with_unique_markers_local (w : World) (st : St)
    (cmd sm em cm fm : String) : St × Except String String :=
  let body :=
    bindE (send_command w st (s!"echo '{sm}'")) fun _ st =>
    bindE (send_command w st cmd) fun _ st =>
    bindE (wait_for_command_completion w st) fun done st =>
    if done then
      bindE (send_command w st (s!"echo '{em}'")) fun _ st =>
      bindE (capture_output w st 50000) fun pane st =>
      extract_between_markers_local w st pane sm em cmd cm fm
    else
      let mw := st.maxWait
      (st, .error s!"Command timed out after {mw}s")
  match body with
  | (st', .ok r) => (st', .ok r)
  | (st', .error _) => run_simple_fallback_local w st' cmd cm fm

/-! ## Top-level interface -/

/-- `run(command)` of `base.py` (323–332): empty/whitespace-only commands
short-circuit to `""`; otherwise try the marker strategy and fall back on
any exception.  Never raises. -/
def run_base (w : World) (st : St) (cmd sm em cm fm : String) :
    St × Except String String :=
  if pyStrip cmd == "" then (st, .ok "")
  else
    match run_with_unique_markers_base w st cmd sm em cm fm with
    | (st', .ok r) => (st', .ok r)
    | (st', .error _) => run_simple_fallback_base w st' cmd cm fm

/-- `check_session()` / `init()` of `local_shell.py` (31–36, 307–321):
`init` raises `RuntimeError` when the tmux session is not in the session
list, otherwise marks the connection initialized. -/
def init_local (w : World) (st : St) : St × Except String Unit :=
  if w.sessionExists then ({st with inited := true}, .ok ())
  else (st, .error "Tmux session does not exist")

/-- The part of `run(cmd)` of `local_shell.py` after the
initialization check: short-circuit blank commands to `("", "", 0)`,
and otherwise return `(output, "", 0)` on success of
`run_with_unique_markers` or `("", str(e), 1)` when it raised. -/
def run_local_body (w : World) (st : St) (cmd sm em cm fm : String) :
    St × Except String (String × String × Nat) :=
  if pyStrip cmd == "" then (st, .ok ("", "", 0))
  else
    match run_with_unique_markers_local w st cmd sm em cm fm with
    | (st', .ok out) => (st', .ok (out, "", 0))
    | (st', .error e) => (st', .ok ("", e, 1))

/-- `run(cmd)` of `local_shell.py` (45–61): initialize on first use
(which may raise, before anything is sent), then run the body above. -/
def run_local (w : World) (st : St) (cmd sm em cm fm : String) :
    St × Except String (String × String × Nat) :=
  bindE (if st.inited then (st, .ok ()) else init_local w st) fun _ st =>
  run_local_body w st cmd sm em cm fm

/-- `run_with_timeout(command, timeout)` of `base.py` (334–341): save
`max_wait`, overwrite it with the explicit timeout, run, and restore the
saved value in a `finally`. -/
def run_with_timeout_base (w : World) (st : St)
    (cmd : String) (timeoutSecs : Nat) (sm em cm fm : String) :
    St × Except String String :=
  let old := st.maxWait
  match run_base w {st with maxWait := timeoutSecs} cmd sm em cm fm with
  | (st', r) => ({st' with maxWait := old}, r)

/-- `run_with_timeout(command, timeout)` of `local_shell.py` (291–297):
same save/overwrite/restore pattern around the local `run` (whose
`init` failure is an exception passing through the `finally`). -/
def run_with_timeout_local (w : World) (st : St)
    (cmd : String) (timeoutSecs : Nat) (sm em cm fm : String) :
    St × Except String (String × String × Nat) :=
  let old := st.maxWait
  match run_local w {st with maxWait := timeoutSecs} cmd sm em cm fm with
  | (st', r) => ({st' with maxWait := old}, r)

deriving instance DecidableEq for Except

/-! ## Reference definitions taken from the specification's words

These are **not** translations of the source; they formalise what the
spec/claims literally say, so that the source-derived definitions above
can be compared against them. -/

/-- The command-echo criterion as the spec states it: the content after
stripping a *leading* prompt character (`$`, `#` or `>`) exactly equals
the command string, or the line equals the command string verbatim. -/
def spec_is_command_echo (line command : String) : Bool :=
  let stripped := pyStripL line.data
  (match stripped with
   | c :: rest =>
     if c == '$' || c == '#' || c == '>' then pyStrip (String.mk rest) == command
     else false
   | [] => false)
  || line == command

/-- Index of the first element satisfying `p`. -/
def firstIdxOf (p : α → Bool) : List α → Option Nat
  | [] => none
  | a :: as => if p a then some 0 else (firstIdxOf p as).map (· + 1)

/-- Marker location as the claim states it: the *first* line containing
the start marker and, strictly after it, the first line containing the
end marker. -/
def first_marker_positions (lines : List String) (sm em : String) :
    Option (Nat × Nat) :=
  match firstIdxOf (fun l => strContains l sm) lines with
  | none => none
  | some i =>
    match firstIdxOf (fun l => strContains l em) (lines.drop (i + 1)) with
    | none => none
    | some k => some (i, i + 1 + k)

/-- A blank line (whitespace only). -/
def isBlankLine (l : String) : Bool := pyStrip l == ""

/-- Remove blank lines from both ends of a line list ("surrounding blank
lines trimmed", as the claim puts it). -/
def trimBlankEnds (ls : List String) : List String :=
  ((ls.dropWhile isBlankLine).reverse.dropWhile isBlankLine).reverse

/-- The result claim C1 predicts for the lines `mids` printed between the
two marker lines: the command-echo lines (in the spec's sense) removed,
surrounding blank lines trimmed, joined with newlines. -/
def claim1_slice (mids : List String) (cmd : String) : String :=
  joinNl (trimBlankEnds (mids.filter (fun l => !spec_is_command_echo l cmd)))

/-! ## Helper lemmas -/

/-- Inversion for `bindE`: a successful sequence came from a successful
first step. -/
theorem bindE_ok {α β : Type} {x : St × Except String α}
    {f : α → St → St × Except String β} {st' : St} {b : β}
    (h : bindE x f = (st', Except.ok b)) :
    ∃ st₁ a, x = (st₁, Except.ok a) ∧ f a st₁ = (st', Except.ok b) := by
  obtain ⟨stx, rx⟩ := x
  cases rx with
  | ok a => exact ⟨stx, a, rfl, h⟩
  | error e => simp [bindE] at h

/-- If dropping `i` elements exposes `a :: t`, then `a` is the element at
index `i` and dropping one more gives `t`. -/
theorem drop_cons_get {α : Type} :
    ∀ (L : List α) (i : Nat) (a : α) (t : List α),
      L.drop i = a :: t → L.get? i = some a ∧ L.drop (i + 1) = t := by
  intro L
  induction L with
  | nil => intro i a t h; simp at h
  | cons x xs ih =>
    intro i a t h
    cases i with
    | zero => simp at h ⊢; exact ⟨h.1, h.2⟩
    | succ n =>
      simp only [List.drop_succ_cons] at h
      simpa using ih n a t h

/-- When every capture succeeds, the wait loop never raises and touches
only the capture/cursor counters. -/
theorem wait_loop_ok (w : World) (hcap : ∀ n, w.capOk n = true) :
    ∀ (fuel : Nat) (st : St) (d : DetSt), ∃ b st',
      wait_loop w fuel st d = (st', Except.ok b) ∧
      st'.sends = st.sends ∧ st'.hist = st.hist ∧ st'.maxWait = st.maxWait ∧
      st'.inited = st.inited := by
  intro fuel
  induction fuel with
  | zero => intro st d; exact ⟨false, st, rfl, rfl, rfl, rfl, rfl⟩
  | succ n ih =>
    intro st d
    simp only [wait_loop, capture_output, hcap st.caps, if_true, bindE,
      get_cursor_position]
    cases det_tick w.hashF (w.panes st.caps) (w.cursors st.curs) d with
    | done => exact ⟨true, _, rfl, rfl, rfl, rfl, rfl⟩
    | cont d' =>
      obtain ⟨b, st', h, h1, h2, h3, h4⟩ := ih _ d'
      exact ⟨b, st', h, h1, h2, h3, h4⟩

/-- When the cursor can never be read, the detector can never report
completion: the wait loop runs out of fuel and reports `false`. -/
theorem wait_loop_nocursor (w : World) (hcap : ∀ n, w.capOk n = true)
    (hcur : ∀ n, w.cursors n = none) :
    ∀ (fuel : Nat) (st : St) (d : DetSt), ∃ st',
      wait_loop w fuel st d = (st', Except.ok false) ∧
      st'.sends = st.sends ∧ st'.hist = st.hist ∧ st'.maxWait = st.maxWait ∧
      st'.inited = st.inited := by
  intro fuel
  induction fuel with
  | zero => intro st d; exact ⟨st, rfl, rfl, rfl, rfl, rfl⟩
  | succ n ih =>
    intro st d
    simp only [wait_loop, capture_output, hcap st.caps, if_true, bindE,
      get_cursor_position]
    have hd : det_tick w.hashF (w.panes st.caps) (w.cursors st.curs) d
        = DetOut.cont ⟨some (w.hashF (w.panes st.caps)), w.cursors st.curs, 0⟩ := by
      simp [det_tick, hcur st.curs]
    rw [hd]
    exact ih _ _

/-- Scanning the tail `mids ++ e :: post` with `start_idx` already set:
marker-free `mids` are passed over and the first end-marker line `e`
closes the search. -/
theorem find_loop_mids (sm em e : String) (post : List String)
    (he : strContains e em = true) (hes : strContains e sm = false) :
    ∀ (mids : List String),
      (∀ l ∈ mids, strContains l sm = false ∧ strContains l em = false) →
      ∀ (i s0 : Nat),
        find_marker_loop sm em (mids ++ e :: post) i (some s0)
          = some (s0, i + mids.length) := by
  intro mids
  induction mids with
  | nil => intro _ i s0; simp [find_marker_loop, hes, he]
  | cons m ms ih =>
    intro hm i s0
    have h1 := (hm m (by simp)).1
    have h2 := (hm m (by simp)).2
    simp only [List.cons_append, find_marker_loop, h1, Bool.false_eq_true,
      if_false, h2, List.append_eq]
    rw [ih (fun l hl => hm l (by simp [hl])) (i + 1) s0]
    simp only [Option.some.injEq, Prod.mk.injEq, List.length_cons]
    exact ⟨trivial, by omega⟩

/-- Scanning from the start-marker line `s`: whatever `start_idx` held
before is overwritten, and the result does not depend on it. -/
theorem find_loop_s (sm em s e : String) (mids post : List String)
    (hs : strContains s sm = true) (he : strContains e em = true)
    (hes : strContains e sm = false)
    (hm : ∀ l ∈ mids, strContains l sm = false ∧ strContains l em = false) :
    ∀ (i : Nat) (si : Option Nat),
      find_marker_loop sm em (s :: (mids ++ e :: post)) i si
        = some (i, i + 1 + mids.length) := by
  intro i si
  simp only [find_marker_loop, hs, if_true, List.append_eq]
  rw [find_loop_mids sm em e post he hes mids hm (i + 1) i]

/-- The marker scan on a structured pane: a prefix `pre` free of the end
marker, the last start-marker line `s`, marker-free lines `mids`, the
first end-marker line `e`, and an arbitrary suffix `post`; the scan
returns exactly the positions of `s` and `e`. -/
theorem find_marker_positions_structured (sm em s e : String)
    (pre mids post : List String)
    (hpre : ∀ l ∈ pre, strContains l em = false)
    (hs : strContains s sm = true)
    (hm : ∀ l ∈ mids, strContains l sm = false ∧ strContains l em = false)
    (he : strContains e em = true) (hes : strContains e sm = false) :
    find_marker_positions (pre ++ s :: (mids ++ e :: post)) sm em
      = some (pre.length, pre.length + 1 + mids.length) := by
  suffices h : ∀ (pre' : List String), (∀ l ∈ pre', strContains l em = false) →
      ∀ (i : Nat) (si : Option Nat),
        find_marker_loop sm em (pre' ++ s :: (mids ++ e :: post)) i si
          = some (i + pre'.length, i + pre'.length + 1 + mids.length) by
    have h0 := h pre hpre 0 none
    simpa [find_marker_positions] using h0
  intro pre'
  induction pre' with
  | nil =>
    intro _ i si
    simpa using find_loop_s sm em s e mids post hs he hes hm i si
  | cons pl ps ih =>
    intro hp i si
    have hrec := ih (fun l hl => hp l (by simp [hl]))
    by_cases hsm : strContains pl sm = true
    · simp only [List.cons_append, find_marker_loop, hsm, if_true, List.append_eq]
      rw [hrec (i + 1) (some i)]
      simp only [Option.some.injEq, Prod.mk.injEq, List.length_cons]
      omega
    · have hplem := hp pl (by simp)
      simp only [Bool.not_eq_true] at hsm
      cases si with
      | none =>
        simp only [List.cons_append, find_marker_loop, hsm, Bool.false_eq_true,
          if_false, List.append_eq]
        rw [hrec (i + 1) none]
        simp only [Option.some.injEq, Prod.mk.injEq, List.length_cons]
        omega
      | some s0 =>
        simp only [List.cons_append, find_marker_loop, hsm, Bool.false_eq_true,
          if_false, hplem, List.append_eq]
        rw [hrec (i + 1) (some s0)]
        simp only [Option.some.injEq, Prod.mk.injEq, List.length_cons]
        omega

/-- Invariant-carrying soundness of the marker-scanning loop, relative to
the whole line list: scanning the suffix `ls = lines.drop i` with a
`start_idx` `si` that (if set) points at an earlier start-marker line
with only marker-free lines after it, a successful scan yields a
start-marker line at `p`, the end-marker line at `q` (which does not
contain the start marker), `p < q`, and only marker-free lines strictly
between them. -/
theorem find_loop_sound (sm em : String) (lines : List String) :
    ∀ (ls : List String) (i : Nat) (si : Option Nat),
      lines.drop i = ls →
      (∀ s0, si = some s0 → s0 < i ∧
        (∃ l0, lines.get? s0 = some l0 ∧ strContains l0 sm = true) ∧
        (∀ k, s0 < k → k < i → ∃ lk, lines.get? k = some lk ∧
            strContains lk sm = false ∧ strContains lk em = false)) →
      ∀ p q, find_marker_loop sm em ls i si = some (p, q) →
        p < q ∧
        (∃ lp, lines.get? p = some lp ∧ strContains lp sm = true) ∧
        (∃ lq, lines.get? q = some lq ∧ strContains lq em = true ∧
          strContains lq sm = false) ∧
        (∀ k, p < k → k < q → ∃ lk, lines.get? k = some lk ∧
          strContains lk sm = false ∧ strContains lk em = false) := by
  intro ls
  induction ls with
  | nil =>
    intro i si _ _ p q h
    simp [find_marker_loop] at h
  | cons l ls' ih =>
    intro i si hdrop hsi p q h
    obtain ⟨hget, hdrop'⟩ := drop_cons_get lines i l ls' hdrop
    by_cases hsm : strContains l sm = true
    · simp only [find_marker_loop, hsm, if_true] at h
      refine ih (i + 1) (some i) hdrop' ?_ p q h
      intro s0 hs0
      cases hs0
      exact ⟨Nat.lt_succ_self i, ⟨l, hget, hsm⟩, fun k hk1 hk2 => absurd hk2 (by omega)⟩
    · simp only [Bool.not_eq_true] at hsm
      cases si with
      | none =>
        simp only [find_marker_loop, hsm, Bool.false_eq_true, if_false] at h
        refine ih (i + 1) none hdrop' ?_ p q h
        intro s0 hs0
        exact absurd hs0 (by simp)
      | some s0 =>
        obtain ⟨hs0i, hl0, hbetween⟩ := hsi s0 rfl
        by_cases hem : strContains l em = true
        · simp only [find_marker_loop, hsm, Bool.false_eq_true, if_false, hem,
            if_true] at h
          obtain ⟨hp, hq⟩ := Prod.mk.injEq .. ▸ Option.some.injEq .. ▸ h
          subst hp hq
          exact ⟨hs0i, hl0, ⟨l, hget, hem, hsm⟩, hbetween⟩
        · simp only [Bool.not_eq_true] at hem
          simp only [find_marker_loop, hsm, Bool.false_eq_true, if_false, hem] at h
          refine ih (i + 1) (some s0) hdrop' ?_ p q h
          intro s1 hs1
          cases hs1
          refine ⟨by omega, hl0, ?_⟩
          intro k hk1 hk2
          by_cases hki : k < i
          · exact hbetween k hk1 hki
          · have : k = i := by omega
            subst this
            exact ⟨l, hget, hsm, hem⟩

/-- Soundness of `find_marker_positions`. -/
theorem find_marker_positions_sound (lines : List String) (sm em : String)
    (p q : Nat) (h : find_marker_positions lines sm em = some (p, q)) :
    p < q ∧
    (∃ lp, lines.get? p = some lp ∧ strContains lp sm = true) ∧
    (∃ lq, lines.get? q = some lq ∧ strContains lq em = true ∧
      strContains lq sm = false) ∧
    (∀ k, p < k → k < q → ∃ lk, lines.get? k = some lk ∧
      strContains lk sm = false ∧ strContains lk em = false) :=
  find_loop_sound sm em lines lines 0 none rfl
    (fun s0 hs0 => absurd hs0 (by simp)) p q h

/-- `afterFirstL` is computed by any split at an occurrence of `c` with a
`c`-free prefix. -/
theorem afterFirstL_of_decomp (c : Char) :
    ∀ (p r : List Char), c ∉ p → afterFirstL c (p ++ c :: r) = some r := by
  intro p
  induction p with
  | nil => intro r _; simp [afterFirstL]
  | cons a as ih =>
    intro r hnp
    have ha : ¬ a = c := fun h => hnp (by simp [h])
    have : (a == c) = false := by simpa using ha
    simp only [List.cons_append, afterFirstL, this, Bool.false_eq_true, if_false]
    exact ih r (fun h => hnp (by simp [h]))

/-- Conversely, a successful `afterFirstL` yields a split at the first
occurrence of `c`. -/
theorem afterFirstL_some (c : Char) :
    ∀ (l r : List Char), afterFirstL c l = some r →
      ∃ p, l = p ++ c :: r ∧ c ∉ p := by
  intro l
  induction l with
  | nil => intro r h; simp [afterFirstL] at h
  | cons a as ih =>
    intro r h
    by_cases hac : (a == c) = true
    · simp only [afterFirstL, hac, if_true, Option.some.injEq] at h
      subst h
      exact ⟨[], by simp [(beq_iff_eq ..).1 hac], by simp⟩
    · simp only [afterFirstL, hac, Bool.false_eq_true, if_false] at h
      obtain ⟨p, hp, hnp⟩ := ih r h
      refine ⟨a :: p, by simp [hp], ?_⟩
      intro hmem
      rcases List.mem_cons.1 hmem with h1 | h1
      · exact hac (by simp [h1])
      · exact hnp h1

/-- One prompt-character check of `_is_command_echo`, declaratively: it
succeeds exactly when the stripped line splits as `p ++ c :: r` with a
`c`-free prefix `p` and the stripped remainder `r` equal to the
command. -/
theorem echoCheckChar_iff (stripped : List Char) (c : Char) (cmd : String) :
    echoCheckChar stripped c cmd = true ↔
      ∃ p r, stripped = p ++ c :: r ∧ c ∉ p ∧ pyStrip (String.mk r) = cmd := by
  unfold echoCheckChar
  cases haf : afterFirstL c stripped with
  | none =>
    simp only [Bool.false_eq_true, false_iff]
    rintro ⟨p, r, hd, hn, _⟩
    rw [hd, afterFirstL_of_decomp c p r hn] at haf
    exact Option.noConfusion haf
  | some r0 =>
    simp only [beq_iff_eq]
    constructor
    · intro h
      obtain ⟨p, hp, hnp⟩ := afterFirstL_some c stripped r0 haf
      exact ⟨p, r0, hp, hnp, h⟩
    · rintro ⟨p, r, hd, hn, he⟩
      rw [hd, afterFirstL_of_decomp c p r hn] at haf
      cases haf
      exact he

/-- Chained `if`s on booleans returning `true` collapse to a
disjunction. -/
theorem bool_if_chain (a b c d : Bool) :
    (if a then true else if b then true else if c then true else d)
      = (a || b || c || d) := by
  cases a <;> cases b <;> cases c <;> simp

/-- `_is_command_echo` as a flat boolean formula. -/
theorem is_command_echo_eq (line cmd : String) :
    is_command_echo line cmd
      = (!(pyStripL line.data).isEmpty
          && (echoCheckChar (pyStripL line.data) '$' cmd
              || echoCheckChar (pyStripL line.data) '#' cmd
              || echoCheckChar (pyStripL line.data) '>' cmd
              || (String.mk (pyStripL line.data) == cmd))) := by
  unfold is_command_echo
  cases hemp : (pyStripL line.data).isEmpty with
  | true => simp [hemp]
  | false => simp [hemp, bool_if_chain, Bool.or_assoc]

/-! ## Claims -/

/-- C2, counterexample: the line `"foo$ ls"` is dropped by
`_is_command_echo` for the command `"ls"`, although it does not begin
with a prompt character (so stripping a *leading* prompt character
leaves it different from the command) and does not equal the command
verbatim — the code splits at the first `$`/`#`/`>` occurring *anywhere*
in the line, so a legitimate output line merely containing `$` can be
excluded without exactly equalling the echoed command. -/
theorem claim2_counterexample :
    is_command_echo "foo$ ls" "ls" = true ∧
    spec_is_command_echo "foo$ ls" "ls" = false ∧
    ¬ ("foo$ ls" = "ls") := by decide

/-- C2 (amended): a line between the markers is dropped if and only if
its stripped content is non-empty and either equals the command string,
or some prompt character (`$`, `#`, `>`) occurs anywhere in the stripped
line and the stripped content after the **first occurrence** of that
character exactly equals the command string.  (So a line containing a
prompt character is excluded whenever the remainder after that character
matches the command, not only when the whole line equals the echoed
command.) -/
theorem claim2_amended (line cmd : String) :
    is_command_echo line cmd = true ↔
      pyStripL line.data ≠ [] ∧
        (String.mk (pyStripL line.data) = cmd ∨
          ∃ c p r, (c = '$' ∨ c = '#' ∨ c = '>') ∧
            pyStripL line.data = p ++ c :: r ∧ c ∉ p ∧
            pyStrip (String.mk r) = cmd) := by
  rw [is_command_echo_eq]
  simp only [Bool.and_eq_true, Bool.or_eq_true, Bool.not_eq_true',
    beq_iff_eq, echoCheckChar_iff]
  constructor
  · rintro ⟨hne, h⟩
    refine ⟨by simpa [List.isEmpty_iff] using hne, ?_⟩
    rcases h with ((⟨p, r, hd, hn, he⟩ | ⟨p, r, hd, hn, he⟩) | ⟨p, r, hd, hn, he⟩) | he
    · exact Or.inr ⟨'$', p, r, Or.inl rfl, hd, hn, he⟩
    · exact Or.inr ⟨'#', p, r, Or.inr (Or.inl rfl), hd, hn, he⟩
    · exact Or.inr ⟨'>', p, r, Or.inr (Or.inr rfl), hd, hn, he⟩
    · exact Or.inl he
  · rintro ⟨hne, h⟩
    refine ⟨by simpa [List.isEmpty_iff] using hne, ?_⟩
    rcases h with he | ⟨c, p, r, hc, hd, hn, he⟩
    · exact Or.inr he
    · rcases hc with rfl | rfl | rfl
      · exact Or.inl (Or.inl (Or.inl ⟨p, r, hd, hn, he⟩))
      · exact Or.inl (Or.inl (Or.inr ⟨p, r, hd, hn, he⟩))
      · exact Or.inl (Or.inr ⟨p, r, hd, hn, he⟩)

/-- The concrete capture used to exercise the marker scan: two lines
contain the start marker. -/
def claim3Lines : List String :=
  ["a CMDSTARTx", "CMDSTARTx", "out", "CMDENDy"]

/-- C3, counterexample: with two start-marker lines before the end
marker, the code locates start index 1, not the *first* line (index 0)
containing the start marker as the claim states. -/
theorem claim3_counterexample :
    find_marker_positions claim3Lines "CMDSTARTx" "CMDENDy" = some (1, 3) ∧
    first_marker_positions claim3Lines "CMDSTARTx" "CMDENDy" = some (0, 3) ∧
    strContains (claim3Lines.getD 0 "") "CMDSTARTx" = true ∧
    ¬ ((1, 3) : Nat × Nat) = ((0, 3) : Nat × Nat) := by decide

/-- C3 (amended): the marker scan returns a start line containing the
start marker and, strictly after it, an end line containing the end
marker (and not the start marker), with no line strictly between them
containing either marker — the start is thus the **last** start-marker
line before the first qualifying end-marker line, not necessarily the
first line of the capture containing the start marker.  When either
marker is missing (`find_marker_positions` yields `none`), both
variants of `_extract_between_markers` delegate to the fallback
extractor. -/
theorem claim3_amended :
    (∀ (lines : List String) (sm em : String) (p q : Nat),
      find_marker_positions lines sm em = some (p, q) →
        p < q ∧
        (∃ lp, lines.get? p = some lp ∧ strContains lp sm = true) ∧
        (∃ lq, lines.get? q = some lq ∧ strContains lq em = true ∧
          strContains lq sm = false) ∧
        (∀ k, p < k → k < q → ∃ lk, lines.get? k = some lk ∧
          strContains lk sm = false ∧ strContains lk em = false)) ∧
    (∀ (w : World) (st : St) (pane sm em cmd cm fm : String),
      find_marker_positions (pySplitLines pane) sm em = none →
        extract_between_markers_base w st pane sm em cmd cm fm
          = run_simple_fallback_base w st cmd cm fm ∧
        extract_between_markers_local w st pane sm em cmd cm fm
          = run_simple_fallback_local w st cmd cm fm) := by
  constructor
  · exact fun lines sm em p q h => find_marker_positions_sound lines sm em p q h
  · intro w st pane sm em cmd cm fm h
    constructor
    · simp only [extract_between_markers_base, h]
    · simp only [extract_between_markers_local, h]

/-- C3, witness: the characterization applied to the concrete capture
above, and the fallback delegation applied to a markerless pane. -/
theorem claim3_witness :
    ((1 : Nat) < 3 ∧
      (∃ lp, claim3Lines.get? 1 = some lp ∧ strContains lp "CMDSTARTx" = true) ∧
      (∃ lq, claim3Lines.get? 3 = some lq ∧ strContains lq "CMDENDy" = true ∧
        strContains lq "CMDSTARTx" = false) ∧
      (∀ k, 1 < k → k < 3 → ∃ lk, claim3Lines.get? k = some lk ∧
        strContains lk "CMDSTARTx" = false ∧ strContains lk "CMDENDy" = false)) ∧
    (extract_between_markers_base ⟨true, fun _ => true, fun _ => true,
        fun _ => "x", fun _ => none, fun _ => 0⟩ ⟨[], 0, 0, 10000, 1, true⟩
        "x" "S" "E" "ls" "C" "F"
      = run_simple_fallback_base ⟨true, fun _ => true, fun _ => true,
        fun _ => "x", fun _ => none, fun _ => 0⟩ ⟨[], 0, 0, 10000, 1, true⟩
        "ls" "C" "F") :=
  ⟨claim3_amended.1 claim3Lines "CMDSTARTx" "CMDENDy" 1 3 (by decide),
   (claim3_amended.2 _ _ "x" "S" "E" "ls" "C" "F" (by decide)).1⟩

/-! ## Shared concrete worlds and states for witnesses and
counterexamples -/

/-- A fully functional transport whose pane is the uninformative `"x"`
and whose cursor can never be read (so the detector always times out). -/
def wStd : World :=
  ⟨true, fun _ => true, fun _ => true, fun _ => "x", fun _ => none, fun _ => 0⟩

/-- A transport on which every `send-keys` fails. -/
def wSendFail : World :=
  ⟨true, fun _ => false, fun _ => true, fun _ => "x", fun _ => none, fun _ => 0⟩

/-- An initialized controller state with history limit 10000 and
`max_wait` 1 (so the discretised wait loop has 2 ticks). -/
def stStd : St := ⟨[], 0, 0, 10000, 1, true⟩

/-- An uninitialized controller state. -/
def stUninit : St := ⟨[], 0, 0, 10000, 1, false⟩

/-! ## History-limit bookkeeping of the fallback -/

/-- A successful fallback `try:` body of the base variant leaves the
history limit at its final `set-option` value 10000. -/
theorem fb_try_base_ok_hist {w : World} {st : St} {cmd cm fm : String}
    {st' : St} {r : String}
    (h : fb_try_base w st cmd cm fm = (st', Except.ok r)) : st'.hist = 10000 := by
  unfold fb_try_base at h
  obtain ⟨s1, a1, h1, h⟩ := bindE_ok h
  obtain ⟨s2, a2, h2, h⟩ := bindE_ok h
  obtain ⟨s3, a3, h3, h⟩ := bindE_ok h
  obtain ⟨s4, a4, h4, h⟩ := bindE_ok h
  obtain ⟨s5, a5, h5, h⟩ := bindE_ok h
  obtain ⟨s6, a6, h6, h⟩ := bindE_ok h
  have hst := congrArg Prod.fst h
  simp only at hst
  rw [← hst]
  rfl

/-- Same for the local variant. -/
theorem fb_try_local_ok_hist {w : World} {st : St} {cmd cm fm : String}
    {st' : St} {r : String}
    (h : fb_try_local w st cmd cm fm = (st', Except.ok r)) : st'.hist = 10000 := by
  unfold fb_try_local at h
  obtain ⟨s1, a1, h1, h⟩ := bindE_ok h
  obtain ⟨s2, a2, h2, h⟩ := bindE_ok h
  obtain ⟨s3, a3, h3, h⟩ := bindE_ok h
  obtain ⟨s4, a4, h4, h⟩ := bindE_ok h
  obtain ⟨s5, a5, h5, h⟩ := bindE_ok h
  obtain ⟨s6, a6, h6, h⟩ := bindE_ok h
  have hst := congrArg Prod.fst h
  simp only at hst
  rw [← hst]
  rfl

/-- After any invocation of either fallback the history limit is 10000,
on success and on error paths alike. -/
theorem fallback_hist_ten_thousand (w : World) (st : St) (cmd cm fm : String) :
    (run_simple_fallback_base w st cmd cm fm).1.hist = 10000 ∧
    (run_simple_fallback_local w st cmd cm fm).1.hist = 10000 := by
  constructor
  · unfold run_simple_fallback_base
    cases h : fb_try_base w st cmd cm fm with
    | mk st1 r =>
      cases r with
      | ok v => simpa using fb_try_base_ok_hist h
      | error e => rfl
  · unfold run_simple_fallback_local
    cases h : fb_try_local w st cmd cm fm with
    | mk st1 r =>
      cases r with
      | ok v => simpa using fb_try_local_ok_hist h
      | error e => rfl

/-- C6, counterexample: with a pre-call history limit of 2000, either
fallback leaves the limit at the hardcoded reset value 10000, not at the
pre-call value. -/
theorem claim6_counterexample :
    (run_simple_fallback_base wStd ⟨[], 0, 0, 2000, 1, true⟩ "ls" "CM" "FM").1.hist
      = 10000 ∧
    (run_simple_fallback_local wStd ⟨[], 0, 0, 2000, 1, true⟩ "ls" "CM" "FM").1.hist
      = 10000 ∧
    ¬ (10000 : Nat) = 2000 := by decide

/-- C6 (amended): after any fallback invocation — success, markers not
found, or an exception inside the body — the session's history limit
equals the hardcoded reset value 10000 (the temporary 50000 never
leaks), but **not** necessarily the pre-call value: the code restores to
the constant 10000, not to what the limit was before the call. -/
theorem claim6_amended (w : World) (st : St) (cmd cm fm : String) :
    (run_simple_fallback_base w st cmd cm fm).1.hist = 10000 ∧
    (run_simple_fallback_local w st cmd cm fm).1.hist = 10000 :=
  fallback_hist_ten_thousand w st cmd cm fm

/-- The base fallback is total: for every world (hence every transport
outcome) it returns `Except.ok`. -/
theorem run_simple_fallback_base_total (w : World) (st : St) (cmd cm fm : String) :
    ∃ st' r, run_simple_fallback_base w st cmd cm fm = (st', Except.ok r) := by
  unfold run_simple_fallback_base
  cases h : fb_try_base w st cmd cm fm with
  | mk st1 r =>
    cases r with
    | ok v => exact ⟨st1, v, rfl⟩
    | error e => exact ⟨setHistLimit st1 10000, _, rfl⟩

/-- `run` of `local_shell.py`, once past the initialization check,
always returns an `ok` triple, whose slots are `("", …)`/`0` on the
success path and `("", e, 1)` when the marker strategy and fallback
both raised. -/
theorem run_local_body_shape (w : World) (st : St) (cmd sm em cm fm : String) :
    ∃ st' out err code,
      run_local_body w st cmd sm em cm fm = (st', Except.ok (out, err, code)) ∧
      ((err = "" ∧ code = 0) ∨ (out = "" ∧ code = 1)) := by
  unfold run_local_body
  by_cases hblank : (pyStrip cmd == "") = true
  · exact ⟨st, "", "", 0, by simp [hblank], Or.inl ⟨rfl, rfl⟩⟩
  · simp only [hblank, Bool.false_eq_true, if_false]
    cases hr : run_with_unique_markers_local w st cmd sm em cm fm with
    | mk st2 r =>
      cases r with
      | ok out => exact ⟨st2, out, "", 0, rfl, Or.inl ⟨rfl, rfl⟩⟩
      | error e => exact ⟨st2, "", e, 1, rfl, Or.inr ⟨rfl, rfl⟩⟩

/-- `run` of `local_shell.py` returns an `ok` triple whenever the
session check passes (already initialized, or the session exists). -/
theorem run_local_ok_shape (w : World) (st : St) (cmd sm em cm fm : String)
    (h : st.inited = true ∨ w.sessionExists = true) :
    ∃ st' out err code,
      run_local w st cmd sm em cm fm = (st', Except.ok (out, err, code)) ∧
      ((err = "" ∧ code = 0) ∨ (out = "" ∧ code = 1)) := by
  unfold run_local
  by_cases hin : st.inited = true
  · simp only [hin, if_true, bindE]
    exact run_local_body_shape w st cmd sm em cm fm
  · have hse : w.sessionExists = true := by
      rcases h with h | h
      · exact absurd h hin
      · exact h
    simp only [Bool.not_eq_true] at hin
    simp only [hin, Bool.false_eq_true, if_false, init_local, hse, if_true, bindE]
    exact run_local_body_shape w {st with inited := true} cmd sm em cm fm

/-- C7, counterexample: on a transport whose sends fail, the local
variant's fallback **raises** (`RuntimeError(f"Error executing command:
{e}")`) instead of returning the error embedded in a result string. -/
theorem claim7_counterexample :
    (run_simple_fallback_local wSendFail stStd "ls" "CM" "FM").2
      = Except.error "Error executing command: Failed to send command to tmux" := by
  decide

/-- C7 (amended): the **base** variant's fallback never raises — for
every command and every transport outcome it returns some string, with
transport errors embedded as `"Error executing command: …"` — while the
**local** variant's fallback re-raises transport errors as a
`RuntimeError`; the local top-level `run` then converts that exception
into the returned triple `("", message, 1)`, so the caller of `run`
still receives a result. -/
theorem claim7_amended :
    (∀ (w : World) (st : St) (cmd cm fm : String),
      ∃ st' r, run_simple_fallback_base w st cmd cm fm = (st', Except.ok r)) ∧
    (∀ (w : World) (st : St) (cmd sm em cm fm : String), st.inited = true →
      ∃ st' out err code,
        run_local w st cmd sm em cm fm = (st', Except.ok (out, err, code))) := by
  constructor
  · exact run_simple_fallback_base_total
  · intro w st cmd sm em cm fm hinit
    obtain ⟨st', out, err, code, heq, _⟩ :=
      run_local_ok_shape w st cmd sm em cm fm (Or.inl hinit)
    exact ⟨st', out, err, code, heq⟩

/-- C7, witness: the base fallback returns `ok` even when every send
fails, and the local `run` still returns a triple on that transport. -/
theorem claim7_witness :
    (∃ st' r, run_simple_fallback_base wSendFail stStd "ls" "CM" "FM"
      = (st', Except.ok r)) ∧
    (∃ st' out err code, run_local wSendFail stStd "ls" "S" "E" "C" "F"
      = (st', Except.ok (out, err, code))) :=
  ⟨claim7_amended.1 wSendFail stStd "ls" "CM" "FM",
   claim7_amended.2 wSendFail stStd "ls" "S" "E" "C" "F" (by decide)⟩

/-- C9, counterexample: when the marker strategy and then the fallback
both fail (here: every `send-keys` fails), `run` returns exit code 1 and
a non-empty stderr slot, not the claimed constant `("", 0)`. -/
theorem claim9_counterexample :
    (run_local wSendFail stStd "ls" "S" "E" "C" "F").2
      = Except.ok ("", "Error executing command: Failed to send command to tmux", 1) ∧
    ¬ (1 : Nat) = 0 := by decide

/-- C9 (amended): the stderr slot is `""` and the exit code `0` on every
path on which the marker strategy (or its fallback) produced a result;
when both strategies raised, `run` instead returns stdout `""`, the
error message in the stderr slot, and exit code `1`. -/
theorem claim9_amended (w : World) (st : St) (cmd sm em cm fm : String)
    (hinit : st.inited = true) :
    ∃ st' out err code,
      run_local w st cmd sm em cm fm = (st', Except.ok (out, err, code)) ∧
      ((err = "" ∧ code = 0) ∨ (out = "" ∧ code = 1)) :=
  run_local_ok_shape w st cmd sm em cm fm (Or.inl hinit)

/-- C9, witness: the amended statement applied to a functioning
transport. -/
theorem claim9_witness :
    ∃ st' out err code,
      run_local wStd stStd "ls" "S" "E" "C" "F" = (st', Except.ok (out, err, code)) ∧
      ((err = "" ∧ code = 0) ∨ (out = "" ∧ code = 1)) :=
  claim9_amended wStd stStd "ls" "S" "E" "C" "F" (by decide)

/-- C10 (confirmed): `run_with_timeout` restores `max_wait` to its
pre-call value on every exit path — the restoration happens in a
`finally`, so it applies both when the inner `run` returns and when it
raises (e.g. the local variant's session-existence failure) — and apart
from `max_wait` the outcome is exactly that of `run` under the
temporary timeout. -/
theorem claim10_restores_max_wait (w : World) (st : St) (cmd : String)
    (t : Nat) (sm em cm fm : String) :
    (run_with_timeout_base w st cmd t sm em cm fm).1.maxWait = st.maxWait ∧
    (run_with_timeout_local w st cmd t sm em cm fm).1.maxWait = st.maxWait ∧
    (run_with_timeout_base w st cmd t sm em cm fm).2
      = (run_base w {st with maxWait := t} cmd sm em cm fm).2 ∧
    (run_with_timeout_local w st cmd t sm em cm fm).2
      = (run_local w {st with maxWait := t} cmd sm em cm fm).2 := by
  refine ⟨?_, ?_, ?_, ?_⟩
  · unfold run_with_timeout_base
    cases run_base w {st with maxWait := t} cmd sm em cm fm with
    | mk st' r => rfl
  · unfold run_with_timeout_local
    cases run_local w {st with maxWait := t} cmd sm em cm fm with
    | mk st' r => rfl
  · unfold run_with_timeout_base
    cases run_base w {st with maxWait := t} cmd sm em cm fm with
    | mk st' r => rfl
  · unfold run_with_timeout_local
    cases run_local w {st with maxWait := t} cmd sm em cm fm with
    | mk st' r => rfl

/-- C8 (confirmed): when the connection is not initialized and the tmux
session does not exist, `run` raises fatally with no keystroke ever
sent; in every other situation (session exists, or already initialized)
`run` returns an `ok` triple to the caller. -/
theorem claim8_session_gate :
    (∀ (w : World) (st : St) (cmd sm em cm fm : String),
      st.inited = false → w.sessionExists = false →
        run_local w st cmd sm em cm fm
          = (st, Except.error "Tmux session does not exist") ∧
        (run_local w st cmd sm em cm fm).1.sends = st.sends) ∧
    (∀ (w : World) (st : St) (cmd sm em cm fm : String),
      st.inited = true ∨ w.sessionExists = true →
        ∃ st' t, run_local w st cmd sm em cm fm = (st', Except.ok t)) := by
  constructor
  · intro w st cmd sm em cm fm hin hse
    have h : run_local w st cmd sm em cm fm
        = (st, Except.error "Tmux session does not exist") := by
      unfold run_local
      simp only [hin, Bool.false_eq_true, if_false, init_local, hse, bindE]
    exact ⟨h, by rw [h]⟩
  · intro w st cmd sm em cm fm h
    obtain ⟨st', out, err, code, heq, _⟩ := run_local_ok_shape w st cmd sm em cm fm h
    exact ⟨st', (out, err, code), heq⟩

/-- C8, witness: a missing session aborts with nothing sent, and an
existing session yields a result. -/
theorem claim8_witness :
    (run_local ⟨false, fun _ => true, fun _ => true, fun _ => "x",
        fun _ => none, fun _ => 0⟩ stUninit "ls" "S" "E" "C" "F"
      = (stUninit, Except.error "Tmux session does not exist") ∧
      (run_local ⟨false, fun _ => true, fun _ => true, fun _ => "x",
        fun _ => none, fun _ => 0⟩ stUninit "ls" "S" "E" "C" "F").1.sends
        = stUninit.sends) ∧
    (∃ st' t, run_local wStd stStd "ls" "S" "E" "C" "F" = (st', Except.ok t)) :=
  ⟨claim8_session_gate.1 _ stUninit "ls" "S" "E" "C" "F" (by decide) (by decide),
   claim8_session_gate.2 wStd stStd "ls" "S" "E" "C" "F" (Or.inl (by decide))⟩

/-- Exact form of the no-cursor wait: with all captures succeeding and
the cursor never readable, the wait loop burns all its fuel, increments
the capture and cursor counters by `fuel`, and reports `false`. -/
theorem wait_nocursor_exact (w : World) (hcap : ∀ n, w.capOk n = true)
    (hcur : ∀ n, w.cursors n = none) :
    ∀ (fuel : Nat) (st : St) (d : DetSt),
      wait_loop w fuel st d
        = ({st with caps := st.caps + fuel, curs := st.curs + fuel},
           Except.ok false) := by
  intro fuel
  induction fuel with
  | zero => intro st d; rfl
  | succ n ih =>
    intro st d
    simp only [wait_loop, capture_output, hcap st.caps, if_true, bindE,
      get_cursor_position]
    have hd : det_tick w.hashF (w.panes st.caps) (w.cursors st.curs) d
        = DetOut.cont ⟨some (w.hashF (w.panes st.caps)), w.cursors st.curs, 0⟩ := by
      simp [det_tick, hcur st.curs]
    rw [hd]
    simp only [ih, Prod.mk.injEq, St.mk.injEq, and_true, true_and]
    omega

/-- Package an equal-state pair into the existential form used by the
exact-effect lemmas. -/
theorem exists_ok_pair {α : Type} {A B : St} {x : α} (h : A = B) :
    ∃ r, (A, Except.ok (ε := String) x) = (B, Except.ok r) :=
  ⟨x, by rw [h]⟩

/-- Exact effect of the base fallback on a functioning transport with an
unreadable cursor: four keystroke lines are sent, the inner wait burns
`2 * max_wait` ticks, one extra capture happens, the history limit ends
at 10000, and some string is returned. -/
theorem fb_base_nocursor_exact (w : World) (st : St) (cmd cm fm : String)
    (hsend : ∀ n, w.sendOk n = true) (hcap : ∀ n, w.capOk n = true)
    (hcur : ∀ n, w.cursors n = none) :
    ∃ r, run_simple_fallback_base w st cmd cm fm
      = ({st with
            sends := st.sends ++ ["clear", s!"echo \"{cm}\"", cmd, s!"echo \"{fm}\""],
            caps := st.caps + (2 * st.maxWait + 1),
            curs := st.curs + 2 * st.maxWait,
            hist := 10000}, Except.ok r) := by
  unfold run_simple_fallback_base fb_try_base
  simp only [setHistLimit, send_command, hsend, if_true, bindE,
    wait_for_command_completion, wait_nocursor_exact w hcap hcur,
    capture_output, hcap]
  apply exists_ok_pair
  simp only [St.mk.injEq, List.append_assoc, List.cons_append, List.nil_append,
    List.singleton_append, and_true, true_and]
  omega

/-- Exact effect of the local fallback on a functioning transport with
an unreadable cursor (same shape as the base variant). -/
theorem fb_local_nocursor_exact (w : World) (st : St) (cmd cm fm : String)
    (hsend : ∀ n, w.sendOk n = true) (hcap : ∀ n, w.capOk n = true)
    (hcur : ∀ n, w.cursors n = none) :
    ∃ r, run_simple_fallback_local w st cmd cm fm
      = ({st with
            sends := st.sends ++ ["clear", s!"echo \"{cm}\"", cmd, s!"echo \"{fm}\""],
            caps := st.caps + (2 * st.maxWait + 1),
            curs := st.curs + 2 * st.maxWait,
            hist := 10000}, Except.ok r) := by
  unfold run_simple_fallback_local fb_try_local
  simp only [setHistLimit, send_command, hsend, if_true, bindE,
    wait_for_command_completion, wait_nocursor_exact w hcap hcur,
    capture_output, hcap]
  apply exists_ok_pair
  simp only [St.mk.injEq, List.append_assoc, List.cons_append, List.nil_append,
    List.singleton_append, and_true, true_and]
  omega

/-- C4, counterexample: on a transport where the detector can never
confirm completion (cursor unreadable), the **local** executor never
sends the end marker — its keystroke trace goes straight from the
command to the fallback's `clear`/fresh markers — whereas the base
executor does send `echo 'E1'` before capturing and extracting.  So in
the local variant the executor does **not** "proceed anyway" with the
end marker, capture and extraction; it aborts the marker strategy. -/
theorem claim4_counterexample :
    (run_with_unique_markers_local wStd stStd "ls" "S1" "E1" "C1" "F1").1.sends
      = ["echo 'S1'", "ls", "clear", "echo \"C1\"", "ls", "echo \"F1\""] ∧
    ¬ "echo 'E1'" ∈
      (run_with_unique_markers_local wStd stStd "ls" "S1" "E1" "C1" "F1").1.sends ∧
    (run_with_unique_markers_base wStd stStd "ls" "S1" "E1" "C1" "F1").1.sends
      = ["echo 'S1'", "ls", "echo 'E1'", "clear", "echo \"C1\"", "ls", "echo \"F1\""] := by
  decide

/-- C4 (amended): when the completion detector reaches TIMEOUT, the two
variants diverge.  The **base** executor proceeds anyway: it still sends
the end marker (`echo '{em}'` appears in its keystroke trace) and
returns a (possibly partial) result.  The **local** executor instead
raises on timeout inside its `try`, never sends the end marker, and
obtains its (still returned) result from the fallback extractor, whose
`clear` keystroke appears in the trace instead. -/
theorem claim4_amended (w : World) (st : St) (cmd sm em cm fm : String)
    (hsend : ∀ n, w.sendOk n = true) (hcap : ∀ n, w.capOk n = true)
    (hcur : ∀ n, w.cursors n = none)
    (hprior : ¬ s!"echo '{em}'" ∈ st.sends)
    (h1 : ¬ s!"echo '{em}'" = s!"echo '{sm}'")
    (h2 : ¬ s!"echo '{em}'" = cmd)
    (h3 : ¬ s!"echo '{em}'" = "clear")
    (h4 : ¬ s!"echo '{em}'" = s!"echo \"{cm}\"")
    (h5 : ¬ s!"echo '{em}'" = s!"echo \"{fm}\"") :
    (∃ stB rB, run_with_unique_markers_base w st cmd sm em cm fm
        = (stB, Except.ok rB) ∧ s!"echo '{em}'" ∈ stB.sends) ∧
    (∃ stL rL, run_with_unique_markers_local w st cmd sm em cm fm
        = (stL, Except.ok rL) ∧
      "clear" ∈ stL.sends ∧ ¬ s!"echo '{em}'" ∈ stL.sends) := by
  constructor
  · unfold run_with_unique_markers_base
    simp only [send_command, hsend, if_true, bindE, wait_for_command_completion,
      wait_nocursor_exact w hcap hcur, capture_output, hcap,
      extract_between_markers_base]
    split
    next stB rB heq =>
      refine ⟨stB, rB, rfl, ?_⟩
      split at heq
      · cases heq
        simp
      · obtain ⟨r2, hfb⟩ := fb_base_nocursor_exact w _ cmd cm fm hsend hcap hcur
        rw [hfb] at heq
        cases heq
        simp
    next stB e heq =>
      exfalso
      split at heq
      · exact absurd heq (by simp)
      · obtain ⟨r2, hfb⟩ := fb_base_nocursor_exact w _ cmd cm fm hsend hcap hcur
        rw [hfb] at heq
        exact absurd heq (by simp)
  · unfold run_with_unique_markers_local
    simp only [send_command, hsend, if_true, bindE, wait_for_command_completion,
      wait_nocursor_exact w hcap hcur, Bool.false_eq_true, if_false]
    obtain ⟨r, hfb⟩ := fb_local_nocursor_exact w _ cmd cm fm hsend hcap hcur
    rw [hfb]
    refine ⟨_, r, rfl, ?_, ?_⟩
    · simp
    · simp only [List.mem_append, List.mem_cons, List.mem_singleton,
        List.not_mem_nil]
      push_neg
      tauto

/-- The slice-and-filter applied to the positions the scan finds on a
structured pane extracts exactly the between-marker lines. -/
theorem marker_slice_structured (pre mids post : List String) (s e cmd : String) :
    marker_slice (pre ++ s :: (mids ++ e :: post)) pre.length
      (pre.length + 1 + mids.length) cmd
      = pyStrip (joinNl (mids.filter (fun l => !is_command_echo l cmd))) := by
  unfold marker_slice
  have hdrop : (pre ++ s :: (mids ++ e :: post)).drop (pre.length + 1)
      = mids ++ e :: post := by
    rw [List.drop_append 1]
    rfl
  rw [hdrop]
  have harith : pre.length + 1 + mids.length - (pre.length + 1) = mids.length := by
    omega
  rw [harith, List.take_left]

/-- A world whose pane is a fixed realistic capture: the echoed
start-marker command, the start-marker output line, the command echo, an
indented output line, the echoed end-marker command, the end-marker
output line and a prompt. -/
def wPane : World :=
  ⟨true, fun _ => true, fun _ => true,
   fun _ => "$ echo 'S1'\nS1\n$ mycmd\n  hello\n$ echo 'E1'\nE1\n$",
   fun _ => none, fun _ => 0⟩

/-- C1, counterexample: the remote shell printed the single output line
`"  hello"` between the markers (plus the command echo).  The claim's
reading — echo removed, surrounding blank lines trimmed — yields
`"  hello"`, but `run` yields `"hello"`: the final `.strip()` of the
joined text also removes the leading whitespace of the first output
line, not only surrounding blank lines. -/
theorem claim1_counterexample :
    (run_base wPane stStd "mycmd" "S1" "E1" "CM" "FM").2 = Except.ok "hello" ∧
    claim1_slice ["$ mycmd", "  hello"] "mycmd" = "  hello" ∧
    ¬ "hello" = "  hello" := by decide

/-- C1 (amended): for every command whose output (and prior scrollback)
avoids the two fresh marker tokens, `run` returns exactly the lines the
shell printed between the two echoed marker lines, with every line
matching the command-echo heuristic removed, joined with newlines, and
the joined string stripped of surrounding whitespace — Python
`str.strip()`, which trims surrounding blank lines **and** the edge
whitespace of the first and last remaining lines.  The captured pane is
`pre ++ [s] ++ mids ++ [e] ++ post`: scrollback `pre` free of the end
marker, the last start-marker line `s`, the shell's lines `mids` free of
both markers, the first end-marker line `e`, and later content
`post`. -/
theorem claim1_amended (w : World) (st : St) (cmd sm em cm fm : String)
    (pre mids post : List String) (s e : String)
    (hsend : ∀ n, w.sendOk n = true) (hcap : ∀ n, w.capOk n = true)
    (hpane : ∀ n, pySplitLines (w.panes n) = pre ++ s :: (mids ++ e :: post))
    (hpre : ∀ l ∈ pre, strContains l em = false)
    (hs : strContains s sm = true)
    (hm : ∀ l ∈ mids, strContains l sm = false ∧ strContains l em = false)
    (he : strContains e em = true) (hes : strContains e sm = false)
    (hcmd : ¬ pyStrip cmd = "") :
    ∃ st', run_base w st cmd sm em cm fm
      = (st', Except.ok (pyStrip (joinNl
          (mids.filter (fun l => !is_command_echo l cmd))))) := by
  have hblank : (pyStrip cmd == "") = false := by
    simpa using hcmd
  unfold run_base run_with_unique_markers_base
  simp only [hblank, Bool.false_eq_true, if_false, send_command, hsend, if_true,
    bindE, wait_for_command_completion]
  obtain ⟨b, stW, hw, hWsends, hWhist, hWmw, hWin⟩ :=
    wait_loop_ok w hcap (2 * st.maxWait)
      ⟨st.sends ++ [s!"echo '{sm}'"] ++ [cmd], st.caps, st.curs, st.hist,
        st.maxWait, st.inited⟩ ⟨none, none, 0⟩
  rw [hw]
  simp only [bindE, send_command, hsend, if_true, capture_output, hcap,
    extract_between_markers_base, hpane,
    find_marker_positions_structured sm em s e pre mids post hpre hs hm he hes,
    marker_slice_structured]
  exact ⟨_, rfl⟩

/-- C1, witness: the amended statement instantiated on the concrete
seven-line pane of `wPane`. -/
theorem claim1_witness :
    ∃ st', run_base wPane stStd "mycmd" "S1" "E1" "CM" "FM"
      = (st', Except.ok (pyStrip (joinNl
          ((["$ mycmd", "  hello"] : List String).filter
            (fun l => !is_command_echo l "mycmd"))))) :=
  claim1_amended wPane stStd "mycmd" "S1" "E1" "CM" "FM"
    ["$ echo 'S1'"] ["$ mycmd", "  hello"] ["E1", "$"] "S1" "$ echo 'E1'"
    (fun _ => rfl) (fun _ => rfl) (fun _ => rfl)
    (by decide) (by decide) (by decide) (by decide) (by decide) (by decide)

/-- C4, witness: the amended statement instantiated on the no-cursor
transport `wStd`. -/
theorem claim4_witness :
    (∃ stB rB, run_with_unique_markers_base wStd stStd "ls" "S1" "E1" "C1" "F1"
        = (stB, Except.ok rB) ∧ "echo 'E1'" ∈ stB.sends) ∧
    (∃ stL rL, run_with_unique_markers_local wStd stStd "ls" "S1" "E1" "C1" "F1"
        = (stL, Except.ok rL) ∧
      "clear" ∈ stL.sends ∧ ¬ "echo 'E1'" ∈ stL.sends) :=
  claim4_amended wStd stStd "ls" "S1" "E1" "C1" "F1"
    (fun _ => rfl) (fun _ => rfl) (fun _ => rfl)
    (by decide) (by decide) (by decide) (by decide) (by decide) (by decide)

/-- Tick `j` of the world's snapshot stream is *stable*: the
`(output hash, cursor)` pair equals the previous tick's pair and the
cursor is present. -/
def StableAt (w : World) (j : Nat) : Prop :=
  w.hashF (w.panes j) = w.hashF (w.panes (j - 1)) ∧
  w.cursors j = w.cursors (j - 1) ∧
  (w.cursors j).isSome = true

/-- Loop invariant of the wait loop at tick `j` (ticks started at `c`):
an unset stored hash implies a zero stable count, and a set stored
hash/cursor reflect the previous tick's snapshot with the last
`d.stable` ticks all stable. -/
def DetInv (w : World) (c j : Nat) (d : DetSt) : Prop :=
  c ≤ j ∧
  (d.lastHash = none → d.stable = 0) ∧
  (∀ h, d.lastHash = some h →
    h = w.hashF (w.panes (j - 1)) ∧ d.lastCursor = w.cursors (j - 1) ∧
    c + d.stable + 1 ≤ j ∧ (∀ k, k < d.stable → StableAt w (j - 1 - k)))

/-- Soundness of a `DONE` report: it can only arise from at least three
consecutive stable ticks (1.5 seconds at the 0.5-second interval)
ending at a tick whose snapshot passes the prompt check. -/
theorem wait_loop_done_sound (w : World) (c : Nat) :
    ∀ (fuel : Nat) (st : St) (d : DetSt) (st' : St),
      st.curs = st.caps → DetInv w c st.caps d →
      wait_loop w fuel st d = (st', Except.ok true) →
      ∃ t sc, 3 ≤ sc ∧ c + sc ≤ t ∧ (∀ k, k < sc → StableAt w (t - k)) ∧
        has_prompt_at_end (w.panes t) = true := by
  intro fuel
  induction fuel with
  | zero =>
    intro st d st' _ _ hrun
    simp [wait_loop] at hrun
  | succ n ih =>
    intro st d st' hcc hinv hrun
    by_cases hc : w.capOk st.caps = true
    · simp only [wait_loop, capture_output, bindE] at hrun
      rw [if_pos hc] at hrun
      simp only [get_cursor_position] at hrun
      rw [hcc] at hrun
      simp only [det_tick] at hrun
      by_cases hcond : some (w.hashF (w.panes st.caps)) = d.lastHash ∧
          w.cursors st.caps = d.lastCursor ∧ (w.cursors st.caps).isSome = true
      · rw [if_pos hcond] at hrun
        obtain ⟨hh, hcur, hsome⟩ := hcond
        obtain ⟨hprev, hcurprev, hbound, hstable⟩ :=
          hinv.2.2 (w.hashF (w.panes st.caps)) hh.symm
        have hstabJ : StableAt w st.caps := by
          refine ⟨hprev, ?_, hsome⟩
          rw [hcur, hcurprev]
        by_cases hacc : 3 ≤ d.stable + 1 ∧
            has_prompt_at_end (w.panes st.caps) = true
        · refine ⟨st.caps, d.stable + 1, hacc.1, by omega, ?_, hacc.2⟩
          intro k hk
          cases k with
          | zero => simpa using hstabJ
          | succ m =>
            have hm : m < d.stable := by omega
            have hsm := hstable m hm
            have heq : st.caps - 1 - m = st.caps - (m + 1) := by omega
            rwa [heq] at hsm
        · rw [if_neg hacc] at hrun
          refine ih _ _ st' (by simp [hcc]) ?_ hrun
          refine ⟨by simp; omega, fun h => by simp at h, ?_⟩
          intro h hh2
          simp only [Option.some.injEq] at hh2
          subst hh2
          refine ⟨by simp, by simp, by simp; omega, ?_⟩
          intro k hk
          have hk' : k < d.stable + 1 := hk
          show StableAt w (st.caps + 1 - 1 - k)
          cases k with
          | zero =>
            have heq : st.caps + 1 - 1 - 0 = st.caps := by omega
            rw [heq]
            exact hstabJ
          | succ m =>
            have hm : m < d.stable := by omega
            have hsm := hstable m hm
            have heq : st.caps + 1 - 1 - (m + 1) = st.caps - 1 - m := by omega
            rw [heq]
            exact hsm
      · rw [if_neg hcond] at hrun
        refine ih _ _ st' (by simp [hcc]) ?_ hrun
        refine ⟨by simp; exact Nat.le_succ_of_le hinv.1, fun _ => rfl, ?_⟩
        intro h hh2
        simp only [Option.some.injEq] at hh2
        subst hh2
        refine ⟨by simp, by simp, ?_, ?_⟩
        · show c + 0 + 1 ≤ st.caps + 1
          have hc1 := hinv.1
          omega
        · intro k hk
          have hk' : k < 0 := hk
          exact absurd hk' (by omega)
    · simp only [wait_loop, capture_output, bindE] at hrun
      rw [if_neg hc] at hrun
      simp at hrun

/-- C5 (confirmed): the completion detector never reports DONE unless
the `(output hash, cursor)` pair has remained equal to the previous
tick's pair, with the cursor present, for at least three consecutive
ticks — an accumulated stable time of at least
`min_stable_time = 1.5` seconds at the 0.5-second check interval — and
the last non-blank line of the final snapshot passes the prompt check;
and whenever the pair changes or the cursor is absent, the consecutive
stable count is reset to zero. -/
theorem claim5_stability :
    (∀ (w : World) (st st' : St) (c : Nat),
      st.caps = c → st.curs = c →
      wait_for_command_completion w st = (st', Except.ok true) →
      ∃ t sc, 3 ≤ sc ∧ c + sc ≤ t ∧
        (∀ k, k < sc → StableAt w (t - k)) ∧
        has_prompt_at_end (w.panes t) = true) ∧
    (∀ (hashF : String → Int) (out : String) (cur : Option String) (d : DetSt),
      ¬ (some (hashF out) = d.lastHash ∧ cur = d.lastCursor ∧ cur.isSome = true) →
      det_tick hashF out cur d = DetOut.cont ⟨some (hashF out), cur, 0⟩) := by
  constructor
  · intro w st st' c hcaps hcurs hrun
    unfold wait_for_command_completion at hrun
    refine wait_loop_done_sound w c (2 * st.maxWait) st ⟨none, none, 0⟩ st'
      ?_ ?_ hrun
    · rw [hcaps, hcurs]
    · exact ⟨by omega, fun _ => rfl, fun h hh => absurd hh (by simp)⟩
  · intro hashF out cur d hcond
    simp only [det_tick, if_neg hcond]

/-- A world whose pane is constantly a prompt-shaped line with a
readable, constant cursor. -/
def wCursor : World :=
  ⟨true, fun _ => true, fun _ => true, fun _ => "user@host:~$",
   fun _ => some "0,0", fun _ => 0⟩

/-- A state with `max_wait` 2 (four detector ticks). -/
def stW5 : St := ⟨[], 0, 0, 10000, 2, true⟩

/-- C5, witness: on the constant-prompt world the detector reports DONE,
and the theorem yields the guaranteed stable run. -/
theorem claim5_witness :
    ∃ t sc, 3 ≤ sc ∧ 0 + sc ≤ t ∧
      (∀ k, k < sc → StableAt wCursor (t - k)) ∧
      has_prompt_at_end (wCursor.panes t) = true :=
  claim5_stability.1 wCursor stW5 ⟨[], 4, 4, 10000, 2, true⟩ 0 rfl rfl rfl
